import Mathlib

/-!
Verification of the multi-worker fetch orchestration and health tracking in
`src/scripts/settings.js` (class around `fetchWithFallback`,
`fetchFromWorker`, `updateWorkerStatus`, `initializeWorkerHealth`).

The JavaScript is shallowly embedded: JS numbers used as counters become
`Int`, response times (floats combined linearly) become `ℚ`, the
`workerHealth` `Map` becomes an association list, promises/exceptions become
`Except`, and the network is an explicit environment assigning an outcome to
every (sweep, worker) pair.
-/

namespace SearchFrontend

/-- Per-worker health record, mirroring the object literal created in
`initializeWorkerHealth` and mutated in `updateWorkerStatus`
(settings.js:1165-1176, 1460-1500). -/
structure WorkerHealth where
  healthy : Bool
  lastCheck : Int
  responseTime : ℚ
  errorCount : Int
  successCount : Int
deriving Repr, DecidableEq

/-- The record `initializeWorkerHealth` stores for every configured worker
(settings.js:1165-1176): healthy, lastCheck 0, responseTime 0, both counters 0. -/
def initHealth : WorkerHealth :=
  { healthy := true, lastCheck := 0, responseTime := 0, errorCount := 0, successCount := 0 }

/-- The fallback record `updateWorkerStatus` builds when the map has no entry
for the worker (settings.js:1461-1467): same as `initHealth` except
`lastCheck` is the current time. -/
def defaultHealth (now : Int) : WorkerHealth :=
  { healthy := true, lastCheck := now, responseTime := 0, errorCount := 0, successCount := 0 }

/-- The success branch of `updateWorkerStatus` (settings.js:1469-1478):
`lastCheck = Date.now()`, `successCount++`,
`errorCount = max(0, errorCount - 1)`,
`responseTime = responseTime * 0.7 + new * 0.3`, and
`healthy = true` once `successCount >= 3`. -/
def recordSuccess (now : Int) (rt : ℚ) (h : WorkerHealth) : WorkerHealth :=
  let s := h.successCount + 1
  let e := max 0 (h.errorCount - 1)
  let r := h.responseTime * (7 / 10) + rt * (3 / 10)
  { healthy := if s ≥ 3 then true else h.healthy
    lastCheck := now
    responseTime := r
    errorCount := e
    successCount := s }

/-- The failure branch of `updateWorkerStatus` (settings.js:1479-1497):
`lastCheck = Date.now()`, `errorCount++`,
`successCount = max(0, successCount - 1)`, and `healthy = false` once
`errorCount >= 3` (which also schedules the 5-minute auto-recovery timer;
the timer firing is the separate `autoRecover` step). -/
def recordFailure (now : Int) (h : WorkerHealth) : WorkerHealth :=
  let e := h.errorCount + 1
  let s := max 0 (h.successCount - 1)
  { healthy := if e ≥ 3 then false else h.healthy
    lastCheck := now
    responseTime := h.responseTime
    errorCount := e
    successCount := s }

/-- The body of the 5-minute `setTimeout` callback scheduled on the failure
path (settings.js:1488-1495): if the worker is still unhealthy when the
timer fires, set `healthy = true` and `errorCount = 0`; everything else,
in particular `successCount`, is left untouched. -/
def autoRecover (h : WorkerHealth) : WorkerHealth :=
  if h.healthy then h
  else { h with healthy := true, errorCount := 0 }

/-- An observable event on a single worker's health record: a recorded
success with response time, a recorded failure, or the 5-minute
auto-recovery timer firing. -/
inductive HealthEvent where
  | success (now : Int) (rt : ℚ)
  | failure (now : Int)
  | timerFire
deriving Repr, DecidableEq

/-- Apply one event to a health record. -/
def applyEvent (h : WorkerHealth) : HealthEvent → WorkerHealth
  | HealthEvent.success now rt => recordSuccess now rt h
  | HealthEvent.failure now => recordFailure now h
  | HealthEvent.timerFire => autoRecover h

/-- Apply a sequence of events, oldest first. -/
def runEvents (h : WorkerHealth) (evs : List HealthEvent) : WorkerHealth :=
  evs.foldl applyEvent h

/-- The `workerHealth` `Map`, as an association list from worker URL to
health record. -/
abbrev HealthMap := List (String × WorkerHealth)

/-- `Map.get`: first binding for the key, if any. -/
def healthLookup (m : HealthMap) (k : String) : Option WorkerHealth :=
  match m with
  | [] => none
  | (k', v) :: rest => if k' = k then some v else healthLookup rest k

/-- `Map.set`: replace the binding if present, otherwise append. -/
def healthSet (m : HealthMap) (k : String) (v : WorkerHealth) : HealthMap :=
  match m with
  | [] => [(k, v)]
  | (k', v') :: rest =>
      if k' = k then (k', v) :: rest else (k', v') :: healthSet rest k v

/-- `updateWorkerStatus(workerUrl, success, responseTime = 0)`
(settings.js:1460-1500): fetch the record (or a fresh default), apply the
success or failure branch, store it back. -/
def updateWorkerStatus (m : HealthMap) (url : String) (success : Bool) (rt : ℚ)
    (now : Int) : HealthMap :=
  let h := (healthLookup m url).getD (defaultHealth now)
  let h' := if success then recordSuccess now rt h else recordFailure now h
  healthSet m url h'

/-- Model of the JSON value `await response.json()` yields. The orchestrator
treats the body as opaque except for JS truthiness and
`Object.keys(data).length` (settings.js:1447-1450), so arrays are kept by
their length and objects by their key list. -/
inductive JsonData where
  | null
  | bool (b : Bool)
  | num (n : Int)
  | str (s : String)
  | arr (len : Nat)
  | obj (keys : List String)
deriving Repr, DecidableEq

/-- JS falsiness of a JSON value: `!data` holds for `null`, `false`, `0`
and the empty string. -/
def JsonData.isFalsy : JsonData → Bool
  | JsonData.null => true
  | JsonData.bool b => !b
  | JsonData.num n => n == 0
  | JsonData.str s => s == ""
  | _ => false

/-- `typeof data === 'object' && Object.keys(data).length === 0`: an object
with no fields; an empty array also satisfies it, since arrays are objects
and `Object.keys([])` is empty (`null` is caught by `!data` first). -/
def JsonData.isEmptyObject : JsonData → Bool
  | JsonData.obj [] => true
  | JsonData.arr 0 => true
  | _ => false

/-- The validation in `fetchFromWorker` (settings.js:1447-1450): the parsed
body must be truthy and not an empty object. -/
def validPayload (d : JsonData) : Bool :=
  !d.isFalsy && !d.isEmptyObject

/-- What the network does for one call issued by `fetchFromWorker`:
the fetch promise rejects (connect/CORS error), the per-call timeout
controller aborts it, the response arrives with a non-ok status,
`response.json()` rejects, or an ok response arrives with body `d`. -/
inductive FetchOutcome where
  | networkError
  | timeoutAbort
  | httpError (status : Nat)
  | invalidJson
  | success (body : JsonData)
deriving Repr, DecidableEq

/-- The errors that can travel between `fetchFromWorker`,
`fetchWithFallback` and the caller. -/
inductive FetchError where
  | network
  | aborted
  | http (status : Nat)
  | parse
  | emptyResponse
  | allWorkersFailed
deriving Repr, DecidableEq

/-- `fetchFromWorker(workerUrl, endpoint, params)` (settings.js:1421-1458),
as a function of the network's behaviour for this one call: every
non-success is rethrown to the caller; an ok response is parsed and
rejected if the payload is empty/falsy, otherwise returned unchanged. -/
def fetchFromWorker (o : FetchOutcome) : Except FetchError JsonData :=
  match o with
  | FetchOutcome.networkError => Except.error FetchError.network
  | FetchOutcome.timeoutAbort => Except.error FetchError.aborted
  | FetchOutcome.httpError s => Except.error (FetchError.http s)
  | FetchOutcome.invalidJson => Except.error FetchError.parse
  | FetchOutcome.success d =>
      if validPayload d then Except.ok d else Except.error FetchError.emptyResponse

/-- The primary worker URL (settings.js:1100). -/
def primaryWorker : String := "https://proxy.yoohoo.workers.dev"

/-- The five fallback worker URLs, in listed order (settings.js:1101-1107). -/
def fallbackWorkers : List String :=
  ["https://proxy1.yoohoo.workers.dev",
   "https://proxy2.yoohoo.workers.dev",
   "https://proxy3.yoohoo.workers.dev",
   "https://proxy4.yoohoo.workers.dev",
   "https://proxy5.yoohoo.workers.dev"]

/-- `const workers = [this.workers.primary, ...this.workers.fallbacks]`
(settings.js:1389). -/
def workers : List String := primaryWorker :: fallbackWorkers

/-- The configuration fields `fetchWithFallback` reads (settings.js:1111-1120). -/
structure Config where
  maxRetries : Nat
  requestTimeout : Nat
deriving Repr, DecidableEq

/-- The defaults: `maxRetries: 3`, `requestTimeout: 15000`. -/
def defaultConfig : Config := { maxRetries := 3, requestTimeout := 15000 }

/-- Mutable state the orchestrator touches while serving one logical
request: the shared `workerHealth` map, plus two observation logs — the
sequence of `updateWorkerStatus` calls made (sweep number, worker,
success flag, in call order) and the sequence of backoff delays awaited
(milliseconds, in order). The logs record the side effects the claims
speak about. -/
structure OrchSt where
  health : HealthMap
  attempts : List (Nat × String × Bool)
  delays : List Nat
deriving Repr, DecidableEq

/-- Initial orchestrator state: health map as built by
`initializeWorkerHealth`, empty logs. -/
def initSt : OrchSt :=
  { health := workers.map (fun w => (w, initHealth)), attempts := [], delays := [] }

/-- The network environment over a whole logical request: the outcome of
the call `fetchFromWorker` makes to worker `w` during sweep `s`. -/
abbrev Env := Nat → String → FetchOutcome

/-- Response times as measured by the `performance.now()` bracket around
each successful call (settings.js:1393-1396). -/
abbrev RtEnv := Nat → String → ℚ

/-- The `for (const worker of workers)` loop of `fetchWithFallback`
(settings.js:1391-1407): try each worker in order; on success record a
success outcome and return the payload immediately; on any error record a
failure outcome and continue with the next worker. Returns `none` when the
whole list is exhausted (the loop falls through to
`throw new Error('All workers failed')`). -/
def trySweep (env : Env) (rtE : RtEnv) (now : Int) (s : Nat) :
    List String → OrchSt → OrchSt × Option JsonData
  | [], st => (st, none)
  | w :: ws, st =>
      match fetchFromWorker (env s w) with
      | Except.ok d =>
          ({ st with health := updateWorkerStatus st.health w true (rtE s w) now
                     attempts := st.attempts ++ [(s, w, true)] }, some d)
      | Except.error _ =>
          trySweep env rtE now s ws
            { st with health := updateWorkerStatus st.health w false 0 now
                      attempts := st.attempts ++ [(s, w, false)] }

/-- The recursion of `fetchWithFallback` (settings.js:1385-1419). `retries`
is the JS argument of the same name; `remaining` is `maxRetries - retries`,
so `remaining = 0` is exactly the exhausted case `retries >= maxRetries`
in which the aggregate error is rethrown to the caller. When a sweep fails
and retries remain, `delay(1000 * (retries + 1))` is awaited and the whole
sweep restarted with `retries + 1`.

`callerAborted` is the state of the caller's `this.abortController.signal`
(settings.js:1311-1318): it is in scope for the method but — exactly as in
the source, which passes only the local timeout controller's signal to
`fetch` and uses a plain `setTimeout` in `delay` — it is never consulted. -/
def fetchGo (env : Env) (rtE : RtEnv) (now : Int) (callerAborted : Bool) :
    Nat → Nat → OrchSt → OrchSt × Except FetchError JsonData
  | retries, 0, st =>
      match trySweep env rtE now retries workers st with
      | (st', some d) => (st', Except.ok d)
      | (st', none) => (st', Except.error FetchError.allWorkersFailed)
  | retries, r + 1, st =>
      match trySweep env rtE now retries workers st with
      | (st', some d) => (st', Except.ok d)
      | (st', none) =>
          fetchGo env rtE now callerAborted (retries + 1) r
            { st' with delays := st'.delays ++ [1000 * (retries + 1)] }

/-- `fetchWithFallback(endpoint, params)` as called by `executeSearch`
(settings.js:1365): `retries` starts at 0, health map freshly initialized,
and the result is either the first successful payload or the single
aggregate error. -/
def fetchWithFallback (cfg : Config) (env : Env) (rtE : RtEnv) (now : Int)
    (callerAborted : Bool) : OrchSt × Except FetchError JsonData :=
  fetchGo env rtE now callerAborted 0 cfg.maxRetries initSt

/-- Specification mirror of one sweep's recorded outcomes: a function of the
network environment alone. Used to show the orchestrator's attempt log
never depends on health state. -/
def sweepTrace (env : Env) (s : Nat) : List String → List (Nat × String × Bool)
  | [] => []
  | w :: ws =>
      match fetchFromWorker (env s w) with
      | Except.ok _ => [(s, w, true)]
      | Except.error _ => (s, w, false) :: sweepTrace env s ws

/-- Specification mirror of one sweep's outcome: the first successful
payload, if any worker in the list succeeds before the list runs out. -/
def sweepResult (env : Env) (s : Nat) : List String → Option JsonData
  | [] => none
  | w :: ws =>
      match fetchFromWorker (env s w) with
      | Except.ok d => some d
      | Except.error _ => sweepResult env s ws

/-- Specification mirror of the whole run's attempt log, from sweep
`retries` with `remaining` retries left. -/
def fullTrace (env : Env) : Nat → Nat → List (Nat × String × Bool)
  | retries, 0 => sweepTrace env retries workers
  | retries, r + 1 =>
      match sweepResult env retries workers with
      | some _ => sweepTrace env retries workers
      | none => sweepTrace env retries workers ++ fullTrace env (retries + 1) r

/-- Specification mirror of the backoff delays awaited. -/
def fullDelays (env : Env) : Nat → Nat → List Nat
  | _, 0 => []
  | retries, r + 1 =>
      match sweepResult env retries workers with
      | some _ => []
      | none => 1000 * (retries + 1) :: fullDelays env (retries + 1) r

/-- Specification mirror of the value surfaced to the caller. -/
def fullResult (env : Env) : Nat → Nat → Except FetchError JsonData
  | retries, 0 =>
      match sweepResult env retries workers with
      | some d => Except.ok d
      | none => Except.error FetchError.allWorkersFailed
  | retries, r + 1 =>
      match sweepResult env retries workers with
      | some d => Except.ok d
      | none => fullResult env (retries + 1) r

theorem trySweep_attempts (env : Env) (rtE : RtEnv) (now : Int) (s : Nat) :
    ∀ (ws : List String) (st : OrchSt),
      (trySweep env rtE now s ws st).1.attempts = st.attempts ++ sweepTrace env s ws := by
  intro ws
  induction ws with
  | nil => intro st; simp [trySweep, sweepTrace]
  | cons w ws ih =>
      intro st
      cases hfw : fetchFromWorker (env s w) with
      | ok d => simp [trySweep, sweepTrace, hfw]
      | error e => simp [trySweep, sweepTrace, hfw, ih]

theorem trySweep_delays (env : Env) (rtE : RtEnv) (now : Int) (s : Nat) :
    ∀ (ws : List String) (st : OrchSt),
      (trySweep env rtE now s ws st).1.delays = st.delays := by
  intro ws
  induction ws with
  | nil => intro st; simp [trySweep]
  | cons w ws ih =>
      intro st
      cases hfw : fetchFromWorker (env s w) with
      | ok d => simp [trySweep, hfw]
      | error e => simp [trySweep, hfw, ih]

theorem trySweep_snd (env : Env) (rtE : RtEnv) (now : Int) (s : Nat) :
    ∀ (ws : List String) (st : OrchSt),
      (trySweep env rtE now s ws st).2 = sweepResult env s ws := by
  intro ws
  induction ws with
  | nil => intro st; simp [trySweep, sweepResult]
  | cons w ws ih =>
      intro st
      cases hfw : fetchFromWorker (env s w) with
      | ok d => simp [trySweep, sweepResult, hfw]
      | error e => simp [trySweep, sweepResult, hfw, ih]

theorem fetchGo_attempts (env : Env) (rtE : RtEnv) (now : Int) (c : Bool) :
    ∀ (rem retries : Nat) (st : OrchSt),
      (fetchGo env rtE now c retries rem st).1.attempts = st.attempts ++ fullTrace env retries rem := by
  intro rem
  induction rem with
  | zero =>
      intro retries st
      rcases hsw : trySweep env rtE now retries workers st with ⟨st', res⟩
      have hres : res = sweepResult env retries workers := by
        have := trySweep_snd env rtE now retries workers st
        rw [hsw] at this; exact this
      have hatt : st'.attempts = st.attempts ++ sweepTrace env retries workers := by
        have := trySweep_attempts env rtE now retries workers st
        rw [hsw] at this; exact this
      cases res with
      | some d => simp [fetchGo, hsw, fullTrace, hatt, ← hres]
      | none => simp [fetchGo, hsw, fullTrace, hatt, ← hres]
  | succ r ih =>
      intro retries st
      rcases hsw : trySweep env rtE now retries workers st with ⟨st', res⟩
      have hres : res = sweepResult env retries workers := by
        have := trySweep_snd env rtE now retries workers st
        rw [hsw] at this; exact this
      have hatt : st'.attempts = st.attempts ++ sweepTrace env retries workers := by
        have := trySweep_attempts env rtE now retries workers st
        rw [hsw] at this; exact this
      cases res with
      | some d => simp [fetchGo, hsw, fullTrace, hatt, ← hres]
      | none =>
          simp only [fetchGo, hsw]
          rw [ih]
          simp [fullTrace, hatt, ← hres]

theorem fetchGo_delays (env : Env) (rtE : RtEnv) (now : Int) (c : Bool) :
    ∀ (rem retries : Nat) (st : OrchSt),
      (fetchGo env rtE now c retries rem st).1.delays = st.delays ++ fullDelays env retries rem := by
  intro rem
  induction rem with
  | zero =>
      intro retries st
      rcases hsw : trySweep env rtE now retries workers st with ⟨st', res⟩
      have hdel : st'.delays = st.delays := by
        have := trySweep_delays env rtE now retries workers st
        rw [hsw] at this; exact this
      cases res with
      | some d => simp [fetchGo, hsw, fullDelays, hdel]
      | none => simp [fetchGo, hsw, fullDelays, hdel]
  | succ r ih =>
      intro retries st
      rcases hsw : trySweep env rtE now retries workers st with ⟨st', res⟩
      have hres : res = sweepResult env retries workers := by
        have := trySweep_snd env rtE now retries workers st
        rw [hsw] at this; exact this
      have hdel : st'.delays = st.delays := by
        have := trySweep_delays env rtE now retries workers st
        rw [hsw] at this; exact this
      cases res with
      | some d => simp [fetchGo, hsw, fullDelays, hdel, ← hres]
      | none =>
          simp only [fetchGo, hsw]
          rw [ih]
          simp [fullDelays, hdel, ← hres]

theorem fetchGo_snd (env : Env) (rtE : RtEnv) (now : Int) (c : Bool) :
    ∀ (rem retries : Nat) (st : OrchSt),
      (fetchGo env rtE now c retries rem st).2 = fullResult env retries rem := by
  intro rem
  induction rem with
  | zero =>
      intro retries st
      rcases hsw : trySweep env rtE now retries workers st with ⟨st', res⟩
      have hres : res = sweepResult env retries workers := by
        have := trySweep_snd env rtE now retries workers st
        rw [hsw] at this; exact this
      cases res with
      | some d => simp [fetchGo, hsw, fullResult, ← hres]
      | none => simp [fetchGo, hsw, fullResult, ← hres]
  | succ r ih =>
      intro retries st
      rcases hsw : trySweep env rtE now retries workers st with ⟨st', res⟩
      have hres : res = sweepResult env retries workers := by
        have := trySweep_snd env rtE now retries workers st
        rw [hsw] at this; exact this
      cases res with
      | some d => simp [fetchGo, hsw, fullResult, ← hres]
      | none =>
          simp only [fetchGo, hsw]
          rw [ih]
          simp [fullResult, ← hres]

theorem sweepResult_allFail (env : Env) (s : Nat)
    (hf : ∀ w, ∃ e, fetchFromWorker (env s w) = Except.error e) :
    ∀ ws : List String, sweepResult env s ws = none := by
  intro ws
  induction ws with
  | nil => simp [sweepResult]
  | cons w ws ih =>
      obtain ⟨e, he⟩ := hf w
      simp [sweepResult, he, ih]

theorem sweepTrace_allFail (env : Env) (s : Nat)
    (hf : ∀ w, ∃ e, fetchFromWorker (env s w) = Except.error e) :
    ∀ ws : List String, sweepTrace env s ws = ws.map (fun w => (s, w, false)) := by
  intro ws
  induction ws with
  | nil => simp [sweepTrace]
  | cons w ws ih =>
      obtain ⟨e, he⟩ := hf w
      simp [sweepTrace, he, ih]

theorem fullResult_allFail (env : Env)
    (hf : ∀ s w, ∃ e, fetchFromWorker (env s w) = Except.error e) :
    ∀ rem retries : Nat, fullResult env retries rem = Except.error FetchError.allWorkersFailed := by
  intro rem
  induction rem with
  | zero =>
      intro retries
      simp [fullResult, sweepResult_allFail env retries (hf retries)]
  | succ r ih =>
      intro retries
      simp [fullResult, sweepResult_allFail env retries (hf retries), ih]

theorem fullTrace_allFail (env : Env)
    (hf : ∀ s w, ∃ e, fetchFromWorker (env s w) = Except.error e) :
    ∀ rem retries : Nat,
      fullTrace env retries rem
        = ((List.range (rem + 1)).map (fun i => retries + i)).flatMap
            (fun s => workers.map (fun w => (s, w, false))) := by
  intro rem
  induction rem with
  | zero =>
      intro retries
      rw [fullTrace, sweepTrace_allFail env retries (hf retries),
        List.range_succ_eq_map 0]
      simp
  | succ r ih =>
      intro retries
      rw [fullTrace, sweepResult_allFail env retries (hf retries)]
      simp only [sweepTrace_allFail env retries (hf retries), ih (retries + 1)]
      rw [List.range_succ_eq_map (r + 1)]
      simp only [List.map_cons, List.map_map, List.flatMap_cons]
      rw [Nat.add_zero]
      congr 1
      congr 1
      apply List.map_congr_left
      intro a _
      simp [Nat.succ_eq_add_one]
      omega

theorem fullTrace_allFail_length (env : Env)
    (hf : ∀ s w, ∃ e, fetchFromWorker (env s w) = Except.error e) :
    ∀ rem retries : Nat, (fullTrace env retries rem).length = workers.length * (rem + 1) := by
  intro rem
  induction rem with
  | zero =>
      intro retries
      simp [fullTrace, sweepTrace_allFail env retries (hf retries)]
  | succ r ih =>
      intro retries
      rw [fullTrace, sweepResult_allFail env retries (hf retries)]
      simp only [List.length_append, sweepTrace_allFail env retries (hf retries),
        List.length_map, ih (retries + 1)]
      ring

theorem sweepResult_firstSuccess (env : Env) (s : Nat) (w : String) (d : JsonData)
    (post : List String) (hw : fetchFromWorker (env s w) = Except.ok d) :
    ∀ pre : List String, (∀ x ∈ pre, ∃ e, fetchFromWorker (env s x) = Except.error e) →
      sweepResult env s (pre ++ w :: post) = some d := by
  intro pre
  induction pre with
  | nil => intro _; simp [sweepResult, hw]
  | cons y pre ih =>
      intro hpre
      obtain ⟨e, he⟩ := hpre y (List.mem_cons_self y pre)
      have := ih (fun x hx => hpre x (List.mem_cons_of_mem y hx))
      simp [sweepResult, he, this]

theorem sweepTrace_firstSuccess (env : Env) (s : Nat) (w : String) (d : JsonData)
    (post : List String) (hw : fetchFromWorker (env s w) = Except.ok d) :
    ∀ pre : List String, (∀ x ∈ pre, ∃ e, fetchFromWorker (env s x) = Except.error e) →
      sweepTrace env s (pre ++ w :: post)
        = pre.map (fun x => (s, x, false)) ++ [(s, w, true)] := by
  intro pre
  induction pre with
  | nil => intro _; simp [sweepTrace, hw]
  | cons y pre ih =>
      intro hpre
      obtain ⟨e, he⟩ := hpre y (List.mem_cons_self y pre)
      have := ih (fun x hx => hpre x (List.mem_cons_of_mem y hx))
      simp [sweepTrace, he, this]

theorem fullResult_someSweep (env : Env) (retries : Nat) (d : JsonData)
    (hs : sweepResult env retries workers = some d) :
    ∀ rem, fullResult env retries rem = Except.ok d := by
  intro rem
  cases rem with
  | zero => simp [fullResult, hs]
  | succ r => simp [fullResult, hs]

theorem fullTrace_someSweep (env : Env) (retries : Nat) (d : JsonData)
    (hs : sweepResult env retries workers = some d) :
    ∀ rem, fullTrace env retries rem = sweepTrace env retries workers := by
  intro rem
  cases rem with
  | zero => simp [fullTrace]
  | succ r => simp [fullTrace, hs]

theorem fullResult_error_shape (env : Env) :
    ∀ rem retries e, fullResult env retries rem = Except.error e →
      e = FetchError.allWorkersFailed := by
  intro rem
  induction rem with
  | zero =>
      intro retries e he
      cases hs : sweepResult env retries workers with
      | some d => rw [fullResult, hs] at he; cases he
      | none => rw [fullResult, hs] at he; cases he; rfl
  | succ r ih =>
      intro retries e he
      cases hs : sweepResult env retries workers with
      | some d => rw [fullResult, hs] at he; cases he
      | none => rw [fullResult, hs] at he; exact ih (retries + 1) e he

theorem fullDelays_shape (env : Env) :
    ∀ rem retries : Nat, ∃ k,
      fullDelays env retries rem = (List.range k).map (fun i => 1000 * (retries + i + 1)) := by
  intro rem
  induction rem with
  | zero => intro retries; exact ⟨0, by simp [fullDelays]⟩
  | succ r ih =>
      intro retries
      cases hs : sweepResult env retries workers with
      | some d => exact ⟨0, by simp [fullDelays, hs]⟩
      | none =>
          obtain ⟨k, hk⟩ := ih (retries + 1)
          refine ⟨k + 1, ?_⟩
          rw [fullDelays, hs, hk, List.range_succ_eq_map k]
          simp only [List.map_cons, List.map_map]
          congr 1
          apply List.map_congr_left
          intro a _
          simp [Function.comp, Nat.succ_eq_add_one]
          omega

theorem fullDelays_allFail (env : Env)
    (hf : ∀ s w, ∃ e, fetchFromWorker (env s w) = Except.error e) :
    ∀ rem retries : Nat,
      fullDelays env retries rem = (List.range rem).map (fun i => 1000 * (retries + i + 1)) := by
  intro rem
  induction rem with
  | zero => intro retries; simp [fullDelays]
  | succ r ih =>
      intro retries
      rw [fullDelays, sweepResult_allFail env retries (hf retries), ih (retries + 1),
        List.range_succ_eq_map r]
      simp only [List.map_cons, List.map_map]
      congr 1
      apply List.map_congr_left
      intro a _
      simp [Function.comp, Nat.succ_eq_add_one]
      omega

/-- An environment in which every call to every worker is a connect error. -/
def allFailEnv : Env := fun _ _ => FetchOutcome.networkError

/-- Response-time environment measuring 0 for every call. -/
def zeroRt : RtEnv := fun _ _ => 0

/-- C1: when every endpoint attempt fails, `fetchWithFallback` performs
exactly `maxRetries + 1` full sweeps over the 6 configured workers in
their fixed order — 24 attempts with the default `maxRetries = 3` — and
surfaces the single aggregate all-workers-failed error to the caller. -/
theorem C1_all_fail_sweep_count (cfg : Config) (env : Env) (rtE : RtEnv) (now : Int) (c : Bool)
    (hf : ∀ s w, ∃ e, fetchFromWorker (env s w) = Except.error e) :
    (fetchWithFallback cfg env rtE now c).2 = Except.error FetchError.allWorkersFailed ∧
    (fetchWithFallback cfg env rtE now c).1.attempts
      = (List.range (cfg.maxRetries + 1)).flatMap
          (fun s => workers.map (fun w => (s, w, false))) ∧
    (fetchWithFallback cfg env rtE now c).1.attempts.length = 6 * (cfg.maxRetries + 1) := by
  refine ⟨?_, ?_, ?_⟩
  · rw [fetchWithFallback, fetchGo_snd, fullResult_allFail env hf]
  · rw [fetchWithFallback, fetchGo_attempts, fullTrace_allFail env hf]
    simp [initSt]
  · rw [fetchWithFallback, fetchGo_attempts]
    simp only [initSt, List.nil_append, fullTrace_allFail_length env hf]
    have hw6 : workers.length = 6 := by simp [workers, fallbackWorkers]
    rw [hw6]

/-- Witness for C1: default configuration, every call a connect error —
the aggregate error is surfaced after exactly 24 recorded attempts. -/
theorem C1_all_fail_sweep_count_witness :
    (fetchWithFallback defaultConfig allFailEnv zeroRt 0 true).2
      = Except.error FetchError.allWorkersFailed ∧
    (fetchWithFallback defaultConfig allFailEnv zeroRt 0 true).1.attempts.length = 24 := by
  have h := C1_all_fail_sweep_count defaultConfig allFailEnv zeroRt 0 true
    (fun s w => ⟨FetchError.network, rfl⟩)
  exact ⟨h.1, by rw [h.2.2]; decide⟩

/-- C5: if the workers strictly before `w` in the configured order all fail
during the first sweep and `w` then succeeds with payload `d`, the caller
receives exactly `d`, a success outcome is recorded for `w`, and nothing
at all is attempted after `w` — in particular none of the workers in
`post`. -/
theorem C5_short_circuit (cfg : Config) (env : Env) (rtE : RtEnv) (now : Int) (c : Bool)
    (pre post : List String) (w : String) (d : JsonData)
    (hsplit : workers = pre ++ w :: post)
    (hpre : ∀ x ∈ pre, ∃ e, fetchFromWorker (env 0 x) = Except.error e)
    (hw : fetchFromWorker (env 0 w) = Except.ok d) :
    (fetchWithFallback cfg env rtE now c).2 = Except.ok d ∧
    (fetchWithFallback cfg env rtE now c).1.attempts
      = pre.map (fun x => (0, x, false)) ++ [(0, w, true)] := by
  have hres : sweepResult env 0 workers = some d := by
    rw [hsplit]; exact sweepResult_firstSuccess env 0 w d post hw pre hpre
  have htr : sweepTrace env 0 workers
      = pre.map (fun x => (0, x, false)) ++ [(0, w, true)] := by
    rw [hsplit]; exact sweepTrace_firstSuccess env 0 w d post hw pre hpre
  constructor
  · rw [fetchWithFallback, fetchGo_snd, fullResult_someSweep env 0 d hres]
  · rw [fetchWithFallback, fetchGo_attempts, fullTrace_someSweep env 0 d hres, htr]
    simp [initSt]

/-- The object key of the sample successful payload. -/
def resultsKey : String := "results"

/-- A sample non-empty successful payload. -/
def okBody : JsonData := JsonData.obj [resultsKey]

/-- The first fallback worker URL (settings.js:1102). -/
def firstFallback : String := "https://proxy1.yoohoo.workers.dev"

/-- The second fallback worker URL — endpoint #3 of 6 (settings.js:1103). -/
def thirdWorker : String := "https://proxy2.yoohoo.workers.dev"

/-- The workers after endpoint #3 in configured order (settings.js:1104-1106). -/
def laterWorkers : List String :=
  ["https://proxy3.yoohoo.workers.dev",
   "https://proxy4.yoohoo.workers.dev",
   "https://proxy5.yoohoo.workers.dev"]

/-- Environment where endpoint #3 succeeds and every other call fails. -/
def thirdOkEnv : Env := fun _ w =>
  if w = thirdWorker then FetchOutcome.success okBody else FetchOutcome.networkError

/-- Witness for C5: endpoint #3 of 6 succeeds on the first sweep; exactly
workers #1-#3 are attempted and #3's payload is returned. -/
theorem C5_short_circuit_witness :
    (fetchWithFallback defaultConfig thirdOkEnv zeroRt 0 false).2 = Except.ok okBody ∧
    (fetchWithFallback defaultConfig thirdOkEnv zeroRt 0 false).1.attempts
      = [(0, primaryWorker, false), (0, firstFallback, false), (0, thirdWorker, true)] := by
  have h := C5_short_circuit defaultConfig thirdOkEnv zeroRt 0 false
    [primaryWorker, firstFallback] laterWorkers thirdWorker okBody
    rfl
    (by
      intro x hx
      refine ⟨FetchError.network, ?_⟩
      simp only [List.mem_cons, List.not_mem_nil, or_false] at hx
      rcases hx with rfl | rfl
      · rfl
      · rfl)
    rfl
  exact ⟨h.1, by rw [h.2]; rfl⟩

/-- C7: backoff is linear — whatever the environment does, the sequence of
delays awaited is an initial segment of 1000, 2000, 3000, …, so the delay
before 1-indexed retry sweep N is exactly `1000 * N` ms; at the default
configuration with everything failing the delays are exactly
[1000, 2000, 3000]. -/
theorem C7_linear_backoff (cfg : Config) (env : Env) (rtE : RtEnv) (now : Int) (c : Bool) :
    (∃ k, (fetchWithFallback cfg env rtE now c).1.delays
        = (List.range k).map (fun i => 1000 * (i + 1))) ∧
    (fetchWithFallback defaultConfig allFailEnv zeroRt 0 false).1.delays
      = [1000, 2000, 3000] := by
  constructor
  · obtain ⟨k, hk⟩ := fullDelays_shape env cfg.maxRetries 0
    refine ⟨k, ?_⟩
    rw [fetchWithFallback, fetchGo_delays]
    simp only [initSt, List.nil_append, hk]
    apply List.map_congr_left
    intro a _
    omega
  · rw [fetchWithFallback, fetchGo_delays,
      fullDelays_allFail allFailEnv (fun s w => ⟨FetchError.network, rfl⟩)
        defaultConfig.maxRetries 0]
    simp [initSt]
    decide

/-- C9: every per-endpoint failure is absorbed inside the orchestrator —
the only error that can reach the caller is the aggregate
all-workers-failed error; a failing worker gets a failure outcome recorded
and the loop continues with the remaining workers; and each failure kind
(connect error, per-call timeout, non-ok HTTP status, unparsable body,
empty payload) is an error of `fetchFromWorker`, rethrown to that loop
rather than to the caller. -/
theorem C9_failures_absorbed (cfg : Config) (env : Env) (rtE : RtEnv) (now : Int) (c : Bool) :
    (∀ e, (fetchWithFallback cfg env rtE now c).2 = Except.error e →
       e = FetchError.allWorkersFailed) ∧
    (∀ (s : Nat) (w : String) (ws : List String) (st : OrchSt) (e : FetchError),
       fetchFromWorker (env s w) = Except.error e →
       trySweep env rtE now s (w :: ws) st
         = trySweep env rtE now s ws
             { st with health := updateWorkerStatus st.health w false 0 now,
                       attempts := st.attempts ++ [(s, w, false)] }) ∧
    (fetchFromWorker FetchOutcome.networkError = Except.error FetchError.network ∧
     fetchFromWorker FetchOutcome.timeoutAbort = Except.error FetchError.aborted ∧
     (∀ status, fetchFromWorker (FetchOutcome.httpError status)
        = Except.error (FetchError.http status)) ∧
     fetchFromWorker FetchOutcome.invalidJson = Except.error FetchError.parse ∧
     (∀ d, validPayload d = false →
        fetchFromWorker (FetchOutcome.success d) = Except.error FetchError.emptyResponse)) := by
  refine ⟨?_, ?_, rfl, rfl, fun status => rfl, rfl, ?_⟩
  · intro e he
    rw [fetchWithFallback, fetchGo_snd] at he
    exact fullResult_error_shape env cfg.maxRetries 0 e he
  · intro s w ws st e he
    simp [trySweep, he]
  · intro d hd
    simp [fetchFromWorker, hd]

/-- Witness for C9: a concrete connect error on the primary worker is
recorded as a failure outcome and the sweep continues with the rest. -/
theorem C9_failures_absorbed_witness :
    trySweep allFailEnv zeroRt 0 0 (primaryWorker :: fallbackWorkers) initSt
      = trySweep allFailEnv zeroRt 0 0 fallbackWorkers
          { initSt with health := updateWorkerStatus initSt.health primaryWorker false 0 0,
                        attempts := initSt.attempts ++ [(0, primaryWorker, false)] } :=
  (C9_failures_absorbed defaultConfig allFailEnv zeroRt 0 false).2.1
    0 primaryWorker fallbackWorkers initSt FetchError.network rfl

theorem fetchGo_abort_irrelevant (env : Env) (rtE : RtEnv) (now : Int) (c1 c2 : Bool) :
    ∀ rem retries st,
      fetchGo env rtE now c1 retries rem st = fetchGo env rtE now c2 retries rem st := by
  intro rem
  induction rem with
  | zero => intro retries st; rfl
  | succ r ih =>
      intro retries st
      rcases hsw : trySweep env rtE now retries workers st with ⟨st', res⟩
      cases res with
      | some d => simp [fetchGo, hsw]
      | none => simp [fetchGo, hsw, ih]

/-- C4 (the code at the failing input): the caller's abort signal is never
consulted anywhere in `fetchWithFallback`/`fetchFromWorker`/`delay` — the
run's entire final state and outcome are identical whether or not the
caller has cancelled — and in particular a request cancelled while all
endpoints are failing still records all 24 failure outcomes and surfaces
the aggregate all-workers-failed error rather than a cancellation. -/
theorem C4_cancellation_has_no_effect (cfg : Config) (env : Env) (rtE : RtEnv) (now : Int)
    (c1 c2 : Bool) :
    fetchWithFallback cfg env rtE now c1 = fetchWithFallback cfg env rtE now c2 ∧
    (fetchWithFallback defaultConfig allFailEnv zeroRt 0 true).2
      = Except.error FetchError.allWorkersFailed ∧
    (fetchWithFallback defaultConfig allFailEnv zeroRt 0 true).1.attempts.length = 24 := by
  refine ⟨?_, ?_, ?_⟩
  · rw [fetchWithFallback, fetchWithFallback]
    exact fetchGo_abort_irrelevant env rtE now c1 c2 cfg.maxRetries 0 initSt
  · rw [fetchWithFallback, fetchGo_snd,
      fullResult_allFail allFailEnv (fun s w => ⟨FetchError.network, rfl⟩)]
  · rw [fetchWithFallback, fetchGo_attempts]
    simp only [initSt, List.nil_append,
      fullTrace_allFail_length allFailEnv (fun s w => ⟨FetchError.network, rfl⟩)]
    decide

/-- C2: the healthy flag transitions to `false` exactly at a recorded
failure that brings the failure credit to the threshold 3, and back to
`true` exactly at a recorded success that brings the success credit to the
threshold 3 or at a grace-timer fire while still unhealthy; the timer
recovery sets the failure credit to 0 and leaves the success credit (and
the smoothed response time) untouched. -/
theorem C2_health_transitions (h : WorkerHealth) (ev : HealthEvent) :
    ((h.healthy = true ∧ (applyEvent h ev).healthy = false) ↔
       (h.healthy = true ∧ (∃ now, ev = HealthEvent.failure now) ∧ h.errorCount + 1 ≥ 3)) ∧
    ((h.healthy = false ∧ (applyEvent h ev).healthy = true) ↔
       (h.healthy = false ∧
         ((∃ now rt, ev = HealthEvent.success now rt) ∧ h.successCount + 1 ≥ 3 ∨
          ev = HealthEvent.timerFire))) ∧
    (h.healthy = false →
       (autoRecover h).healthy = true ∧ (autoRecover h).errorCount = 0 ∧
       (autoRecover h).successCount = h.successCount ∧
       (autoRecover h).responseTime = h.responseTime) := by
  obtain ⟨hb, lc, r0, ec, sc⟩ := h
  cases hb <;> cases ev <;>
    simp [applyEvent, recordSuccess, recordFailure, autoRecover]

/-- Witness for C2: a record that is unhealthy with failure credit 3 and
success credit 1 recovers through the grace timer with failure credit
reset to 0 and success credit still 1. -/
theorem C2_health_transitions_witness :
    (autoRecover { healthy := false, lastCheck := 0, responseTime := 0,
                   errorCount := 3, successCount := 1 }).healthy = true ∧
    (autoRecover { healthy := false, lastCheck := 0, responseTime := 0,
                   errorCount := 3, successCount := 1 }).errorCount = 0 ∧
    (autoRecover { healthy := false, lastCheck := 0, responseTime := 0,
                   errorCount := 3, successCount := 1 }).successCount = 1 := by
  have h := (C2_health_transitions
    { healthy := false, lastCheck := 0, responseTime := 0,
      errorCount := 3, successCount := 1 } HealthEvent.timerFire).2.2 rfl
  exact ⟨h.1, h.2.1, h.2.2.1⟩

/-- C3 counterexample: a single success with response time 10 on a freshly
initialized health record yields smoothed response time 3
(= 0·0.7 + 10·0.3), not 10 as the claim states. -/
theorem C3_smoothed_rt_counterexample :
    ¬ ((recordSuccess 0 10 initHealth).responseTime = 10) := by
  simp [recordSuccess, initHealth]
  norm_num

/-- C3 amended: a fresh record starts the average at 0, so the first
success with response time t yields 0.3·t (not t), two successes t1 then
t2 yield 0.21·t1 + 0.3·t2 (not 0.7·t1 + 0.3·t2); the general step is
prev·0.7 + new·0.3 exactly as claimed. -/
theorem C3_smoothed_rt_ema (now now' : Int) (t t1 t2 : ℚ) (h : WorkerHealth) :
    (recordSuccess now t initHealth).responseTime = 3 / 10 * t ∧
    (recordSuccess now' t2 (recordSuccess now t1 initHealth)).responseTime
      = 21 / 100 * t1 + 3 / 10 * t2 ∧
    (recordSuccess now t h).responseTime = h.responseTime * (7 / 10) + t * (3 / 10) := by
  refine ⟨?_, ?_, rfl⟩ <;> simp [recordSuccess, initHealth] <;> ring

theorem applyEvent_counters_nonneg (h : WorkerHealth) (ev : HealthEvent)
    (hs : 0 ≤ h.successCount) (he : 0 ≤ h.errorCount) :
    0 ≤ (applyEvent h ev).successCount ∧ 0 ≤ (applyEvent h ev).errorCount := by
  cases ev with
  | success now rt => simp [applyEvent, recordSuccess] <;> omega
  | failure now => simp [applyEvent, recordFailure] <;> omega
  | timerFire =>
      by_cases hb : h.healthy <;> simp [applyEvent, autoRecover, hb] <;> omega

theorem runEvents_counters_nonneg (evs : List HealthEvent) :
    ∀ h : WorkerHealth, 0 ≤ h.successCount → 0 ≤ h.errorCount →
      0 ≤ (runEvents h evs).successCount ∧ 0 ≤ (runEvents h evs).errorCount := by
  induction evs with
  | nil => intro h hs he; exact ⟨hs, he⟩
  | cons ev evs ih =>
      intro h hs he
      have step := applyEvent_counters_nonneg h ev hs he
      have : runEvents h (ev :: evs) = runEvents (applyEvent h ev) evs := rfl
      rw [this]
      exact ih (applyEvent h ev) step.1 step.2

/-- C8: starting from any record with non-negative credits, both credits
stay non-negative under every sequence of recorded outcomes (and timer
fires), and each recorded outcome increments the matching credit by
exactly 1 while decrementing the opposite credit by exactly 1 floored
at 0. -/
theorem C8_credit_invariant (h : WorkerHealth) (evs : List HealthEvent)
    (hs : 0 ≤ h.successCount) (he : 0 ≤ h.errorCount) :
    (0 ≤ (runEvents h evs).successCount ∧ 0 ≤ (runEvents h evs).errorCount) ∧
    (∀ now rt, (recordSuccess now rt h).successCount = h.successCount + 1 ∧
               (recordSuccess now rt h).errorCount = max 0 (h.errorCount - 1)) ∧
    (∀ now, (recordFailure now h).errorCount = h.errorCount + 1 ∧
            (recordFailure now h).successCount = max 0 (h.successCount - 1)) := by
  refine ⟨runEvents_counters_nonneg evs h hs he, ?_, ?_⟩
  · intro now rt; exact ⟨rfl, rfl⟩
  · intro now; exact ⟨rfl, rfl⟩

/-- Witness for C8 on a concrete record and outcome sequence. -/
theorem C8_credit_invariant_witness :
    0 ≤ (runEvents initHealth
          [HealthEvent.failure 0, HealthEvent.success 1 2, HealthEvent.failure 2]).successCount ∧
    0 ≤ (runEvents initHealth
          [HealthEvent.failure 0, HealthEvent.success 1 2, HealthEvent.failure 2]).errorCount :=
  (C8_credit_invariant initHealth
    [HealthEvent.failure 0, HealthEvent.success 1 2, HealthEvent.failure 2]
    (by decide) (by decide)).1

theorem healthLookup_healthSet_self (k : String) (v : WorkerHealth) :
    ∀ m : HealthMap, healthLookup (healthSet m k v) k = some v := by
  intro m
  induction m with
  | nil => simp [healthSet, healthLookup]
  | cons p rest ih =>
      rcases p with ⟨k', v'⟩
      by_cases hk : k' = k
      · simp [healthSet, healthLookup, hk]
      · simp [healthSet, healthLookup, hk, ih]

/-- C10: recording an outcome is total — it always leaves a record stored
under the URL — and a URL absent from the map silently gets the fresh
default record (healthy, both counters 0, response time 0) with the
outcome's branch applied to it. -/
theorem C10_update_total_default (m : HealthMap) (url : String) (success : Bool)
    (rt : ℚ) (now : Int) :
    (∃ h', healthLookup (updateWorkerStatus m url success rt now) url = some h') ∧
    (healthLookup m url = none →
       updateWorkerStatus m url success rt now
         = healthSet m url
             (if success then recordSuccess now rt (defaultHealth now)
              else recordFailure now (defaultHealth now))) ∧
    ((defaultHealth now).healthy = true ∧ (defaultHealth now).errorCount = 0 ∧
     (defaultHealth now).successCount = 0 ∧ (defaultHealth now).responseTime = 0) := by
  refine ⟨⟨_, healthLookup_healthSet_self url _ m⟩, ?_, rfl, rfl, rfl, rfl⟩
  intro hnone
  simp [updateWorkerStatus, hnone]

/-- Witness for C10: updating a never-initialized URL on the empty map
stores the failure branch applied to the fresh default record. -/
theorem C10_update_total_default_witness :
    updateWorkerStatus [] primaryWorker false 0 5
      = healthSet [] primaryWorker (recordFailure 5 (defaultHealth 5)) := by
  have h := (C10_update_total_default [] primaryWorker false 0 5).2.1 rfl
  simpa using h

theorem sweepTrace_fst (env : Env) (s : Nat) :
    ∀ (ws : List String) (a : Nat × String × Bool), a ∈ sweepTrace env s ws → a.1 = s := by
  intro ws
  induction ws with
  | nil => intro a ha; simp [sweepTrace] at ha
  | cons w ws ih =>
      intro a ha
      cases hfw : fetchFromWorker (env s w) with
      | ok d =>
          simp [sweepTrace, hfw] at ha
          rw [ha]
      | error e =>
          simp [sweepTrace, hfw] at ha
          rcases ha with rfl | ha
          · rfl
          · exact ih a ha

theorem fullTrace_fst_ge (env : Env) :
    ∀ (rem retries : Nat) (a : Nat × String × Bool),
      a ∈ fullTrace env retries rem → retries ≤ a.1 := by
  intro rem
  induction rem with
  | zero =>
      intro retries a ha
      rw [fullTrace] at ha
      exact le_of_eq (sweepTrace_fst env retries workers a ha).symm
  | succ r ih =>
      intro retries a ha
      cases hsw : sweepResult env retries workers with
      | some d =>
          rw [fullTrace, hsw] at ha
          exact le_of_eq (sweepTrace_fst env retries workers a ha).symm
      | none =>
          rw [fullTrace, hsw] at ha
          rcases List.mem_append.mp ha with ha | ha
          · exact le_of_eq (sweepTrace_fst env retries workers a ha).symm
          · have := ih (retries + 1) a ha
            omega

theorem sweepTrace_map_worker (env : Env) (s : Nat) :
    ∀ ws : List String, ∃ n, (sweepTrace env s ws).map (fun a => a.2.1) = ws.take n := by
  intro ws
  induction ws with
  | nil => exact ⟨0, rfl⟩
  | cons w ws ih =>
      cases hfw : fetchFromWorker (env s w) with
      | ok d => exact ⟨1, by simp [sweepTrace, hfw]⟩
      | error e =>
          obtain ⟨n, hn⟩ := ih
          exact ⟨n + 1, by simp [sweepTrace, hfw, hn]⟩

theorem sweepTrace_filter_self (env : Env) (s : Nat) (ws : List String) :
    (sweepTrace env s ws).filter (fun a => a.1 == s) = sweepTrace env s ws := by
  apply List.filter_eq_self.mpr
  intro a ha
  have h := sweepTrace_fst env s ws a ha
  simp [h]

theorem sweepTrace_filter_ne (env : Env) (s t : Nat) (ws : List String) (hst : t ≠ s) :
    (sweepTrace env s ws).filter (fun a => a.1 == t) = [] := by
  apply List.filter_eq_nil_iff.mpr
  intro a ha
  have h := sweepTrace_fst env s ws a ha
  simp [h]
  omega

theorem fullTrace_filter_take (env : Env) :
    ∀ rem retries s : Nat, ∃ n,
      ((fullTrace env retries rem).filter (fun a => a.1 == s)).map (fun a => a.2.1)
        = workers.take n := by
  intro rem
  induction rem with
  | zero =>
      intro retries s
      by_cases hs : s = retries
      · subst hs
        obtain ⟨n, hn⟩ := sweepTrace_map_worker env s workers
        refine ⟨n, ?_⟩
        rw [fullTrace, sweepTrace_filter_self env s workers]
        exact hn
      · refine ⟨0, ?_⟩
        rw [fullTrace, sweepTrace_filter_ne env retries s workers hs]
        simp
  | succ r ih =>
      intro retries s
      cases hsw : sweepResult env retries workers with
      | some d =>
          by_cases hs : s = retries
          · subst hs
            obtain ⟨n, hn⟩ := sweepTrace_map_worker env s workers
            refine ⟨n, ?_⟩
            rw [fullTrace, hsw, sweepTrace_filter_self env s workers]
            exact hn
          · refine ⟨0, ?_⟩
            rw [fullTrace, hsw, sweepTrace_filter_ne env retries s workers hs]
            simp
      | none =>
          by_cases hs : s = retries
          · subst hs
            obtain ⟨n, hn⟩ := sweepTrace_map_worker env s workers
            refine ⟨n, ?_⟩
            rw [fullTrace, hsw, List.filter_append, sweepTrace_filter_self env s workers]
            have h2 : (fullTrace env (s + 1) r).filter (fun a => a.1 == s) = [] := by
              apply List.filter_eq_nil_iff.mpr
              intro a ha
              have := fullTrace_fst_ge env r (s + 1) a ha
              simp
              omega
            rw [h2, List.append_nil]
            exact hn
          · obtain ⟨n, hn⟩ := ih (retries + 1) s
            refine ⟨n, ?_⟩
            rw [fullTrace, hsw, List.filter_append,
              sweepTrace_filter_ne env retries s workers hs, List.nil_append]
            exact hn

/-- C6: the orchestrator never consults recorded health — runs started from
any two health maps produce identical attempt logs, delay logs and
results — and within every sweep the workers attempted are an in-order
prefix of the configured primary-then-fallbacks list, so no endpoint is
ever skipped, reordered or deprioritized. -/
theorem C6_fixed_order_health_blind (cfg : Config) (env : Env) (rtE : RtEnv) (now : Int)
    (c : Bool) :
    (∀ m1 m2 : HealthMap,
       (fetchGo env rtE now c 0 cfg.maxRetries
           { health := m1, attempts := [], delays := [] }).1.attempts
         = (fetchGo env rtE now c 0 cfg.maxRetries
             { health := m2, attempts := [], delays := [] }).1.attempts ∧
       (fetchGo env rtE now c 0 cfg.maxRetries
           { health := m1, attempts := [], delays := [] }).1.delays
         = (fetchGo env rtE now c 0 cfg.maxRetries
             { health := m2, attempts := [], delays := [] }).1.delays ∧
       (fetchGo env rtE now c 0 cfg.maxRetries
           { health := m1, attempts := [], delays := [] }).2
         = (fetchGo env rtE now c 0 cfg.maxRetries
             { health := m2, attempts := [], delays := [] }).2) ∧
    (∀ s, ∃ n,
       ((fetchWithFallback cfg env rtE now c).1.attempts.filter
           (fun a => a.1 == s)).map (fun a => a.2.1)
         = workers.take n) := by
  constructor
  · intro m1 m2
    refine ⟨?_, ?_, ?_⟩
    · rw [fetchGo_attempts, fetchGo_attempts]
    · rw [fetchGo_delays, fetchGo_delays]
    · rw [fetchGo_snd, fetchGo_snd]
  · intro s
    rw [fetchWithFallback, fetchGo_attempts]
    simp only [initSt, List.nil_append]
    exact fullTrace_filter_take env cfg.maxRetries 0 s

end SearchFrontend
